import Mathlib

/-!
Verification of the bookmark collection view model of `omvad_link_saver`
(`src/components/AddBookmarkForm.tsx` and `BookmarkGrid.tsx`):
fetch-and-normalize, filter derivation, drag-reorder with sequential
persistence and rollback, delete, summary generation and tag parsing.

JavaScript strings are modelled as Lean `String` (a list of characters);
`toLowerCase`, `includes`, `substring`, `trim`, `split` are embedded as
character-list operations.  The Supabase calls issued by an operation are
recorded explicitly (id, position, user id), and a fault parameter selects
which sequential persistence call, if any, rejects.
-/

namespace LinkSaver

/-- JS `String.prototype.toLowerCase`, character by character. -/
def toLowerCase (s : String) : String :=
  ⟨s.toList.map Char.toLower⟩

/-- Does `l` start with `sub`? (helper for the substring check). -/
def startsWithChars : List Char → List Char → Bool
  | _, [] => true
  | [], _ :: _ => false
  | a :: as, b :: bs => a = b && startsWithChars as bs

/-- Does `hay` contain `sub` as a contiguous run? -/
def containsChars : List Char → List Char → Bool
  | [], sub => sub.isEmpty
  | a :: t, sub => startsWithChars (a :: t) sub || containsChars t sub

/-- JS `haystack.includes(needle)`: substring containment. -/
def jsIncludes (haystack needle : String) : Bool :=
  containsChars haystack.toList needle.toList

/-- JS `s.substring(0, n)`: the first `n` characters of `s`. -/
def jsSubstring0 (s : String) (n : Nat) : String :=
  ⟨s.toList.take n⟩

/-- JS `String.prototype.trim` on character lists: drop whitespace from
both ends. -/
def trimChars (l : List Char) : List Char :=
  (l.dropWhile Char.isWhitespace).rdropWhile Char.isWhitespace

/-- JS `s.trim()`. -/
def jsTrim (s : String) : String :=
  ⟨trimChars s.toList⟩

/-- A bookmark record as returned by the Supabase `select`, where
`position` may still be null (`Option`). -/
structure RawBookmark where
  id : String
  url : String
  title : String
  favicon_url : Option String
  summary : Option String
  tags : List String
  created_at : String
  position : Option Int
deriving DecidableEq

/-- The in-memory `Bookmark` of `BookmarkGrid.tsx`: after normalization
every bookmark has a defined integer `position`. -/
structure Bookmark where
  id : String
  url : String
  title : String
  favicon_url : Option String
  summary : Option String
  tags : List String
  created_at : String
  position : Int
deriving DecidableEq

/-- `fetchBookmarks` normalization (BookmarkGrid.tsx lines 298-304):
`(data || []).map((bookmark, index) => ({...bookmark, position: bookmark.position ?? index}))`. -/
def normalizeBookmarks (data : List RawBookmark) : List Bookmark :=
  data.enum.map (fun p =>
    { id := p.2.id, url := p.2.url, title := p.2.title,
      favicon_url := p.2.favicon_url, summary := p.2.summary,
      tags := p.2.tags, created_at := p.2.created_at,
      position := p.2.position.getD (p.1 : Int) })

/-- The search predicate of the filter effect (BookmarkGrid.tsx lines 334-338):
case-insensitive substring match against title, url and summary, the
summary conjunct evaluating to false when `summary` is null
(`bookmark.summary?.toLowerCase().includes(...)`). -/
def matchesSearch (searchTerm : String) (b : Bookmark) : Bool :=
  jsIncludes (toLowerCase b.title) (toLowerCase searchTerm) ||
  jsIncludes (toLowerCase b.url) (toLowerCase searchTerm) ||
  (match b.summary with
   | some s => jsIncludes (toLowerCase s) (toLowerCase searchTerm)
   | none => false)

/-- The tag predicate (lines 343-345):
`selectedTags.some(tag => bookmark.tags.includes(tag))`. -/
def matchesTags (selectedTags : List String) (b : Bookmark) : Bool :=
  selectedTags.any (fun tag => b.tags.contains tag)

/-- The filter effect (BookmarkGrid.tsx lines 329-349): start from the
working list, filter by search term when non-empty (JS truthiness), then
by selected tags when non-empty. -/
def filterBookmarks (bookmarks : List Bookmark) (searchTerm : String)
    (selectedTags : List String) : List Bookmark :=
  let filtered := bookmarks
  let filtered := if searchTerm = "" then filtered
    else filtered.filter (matchesSearch searchTerm)
  if 0 < selectedTags.length then filtered.filter (matchesTags selectedTags)
  else filtered

/-- dnd-kit `arrayMove(array, from, to)`: remove the element at `from`
and splice it back in at `to`.  The JS library clamps the insertion index
to the post-removal length; `handleDragEnd` only calls it with indices
returned by successful `findIndex` lookups, so both indices are in range
and an out-of-range `from` is mapped to the identity. -/
def arrayMove (l : List α) (f t : Nat) : List α :=
  match l[f]? with
  | none => l
  | some x => (l.eraseIdx f).insertIdx (min t (l.length - 1)) x

/-- One `supabase.from('bookmarks').update({position}).eq('id', ...).eq('user_id', ...)`
call issued by the reorder loop (BookmarkGrid.tsx lines 405-411). -/
structure UpdateCall where
  id : String
  position : Int
  userId : String
deriving DecidableEq

/-- The state left behind by `handleDragEnd`, together with the
persistence calls it issued (in issue order — the loop awaits each call
before starting the next) and whether a destructive toast was shown. -/
structure DragResult where
  filteredBookmarks : List Bookmark
  bookmarks : List Bookmark
  calls : List UpdateCall
  errorToast : Bool
deriving DecidableEq

/-- The `setBookmarks` reconciliation body (lines 414-423): copy `prev`,
for each bookmark of the new order find its index by id and overwrite it
with the reordered bookmark carrying `position := index`, skipping ids
that are absent (`findIndex === -1`). -/
def applyOrder (acc : List Bookmark) : List (Nat × Bookmark) → List Bookmark
  | [] => acc
  | (idx, b) :: rest =>
    let i := acc.findIdx (fun x => x.id = b.id)
    let acc2 := if i < acc.length then
        acc.set i { b with position := (idx : Int) } else acc
    applyOrder acc2 rest

/-- Lines 414-423 in full: reconcile the working list with the new order,
then `updated.sort((a, b) => a.position - b.position)` (stable ascending
sort by position). -/
def reconcileBookmarks (prev newOrdered : List Bookmark) : List Bookmark :=
  (applyOrder prev newOrdered.enum).mergeSort
    (fun a b => a.position ≤ b.position)

/-- The per-item update payloads (lines 400-403):
`newOrderedBookmarks.map((bookmark, index) => ({id: bookmark.id, position: index}))`,
each later issued scoped by the bookmark id and `user?.id`. -/
def mkUpdates (uid : String) (newOrdered : List Bookmark) : List UpdateCall :=
  newOrdered.enum.map (fun p => { id := p.2.id, position := (p.1 : Int), userId := uid })

set_option linter.unusedVariables false in
/-- `handleDragEnd` (BookmarkGrid.tsx lines 386-435).  `activeId` and
`overId` are the dragged and drop-target item ids; `failAt = some k`
injects a Remote-Store failure into the `k`-th (0-based) sequential
persistence call, `none` makes them all succeed.  When the guard
`active.id !== over?.id` fails nothing happens.  Otherwise the filtered
view is optimistically replaced by the `arrayMove` result and the loop
issues one update call per item of the new order.  The loop discards
each `await supabase...update...` result: unlike `handleDeleteBookmark`
and `fetchBookmarks` there is no `if (error) throw error`, and the
supabase client resolves failures as a `{ error }` value rather than
rejecting, so a failing store call is silently swallowed — the loop
keeps issuing the remaining calls, the reconciliation and re-sort still
run, no toast is shown and no revert happens.  The `catch` block of
lines 425-433 (destructive toast plus inverse `arrayMove`) is therefore
unreachable for a store failure, and the result does not depend on
`failAt`. -/
def handleDragEnd (uid : String) (filtered bookmarks : List Bookmark)
    (activeId overId : String) (failAt : Option Nat) : DragResult :=
  if activeId ≠ overId then
    let oldIndex := filtered.findIdx (fun item => item.id = activeId)
    let newIndex := filtered.findIdx (fun item => item.id = overId)
    let newOrdered := arrayMove filtered oldIndex newIndex
    { filteredBookmarks := newOrdered
      bookmarks := reconcileBookmarks bookmarks newOrdered
      calls := mkUpdates uid newOrdered
      errorToast := false }
  else
    { filteredBookmarks := filtered
      bookmarks := bookmarks
      calls := []
      errorToast := false }

/-- The `supabase.from('bookmarks').delete().eq('id', id).eq('user_id', user?.id)`
call of `handleDeleteBookmark` (lines 354-358). -/
structure DeleteCall where
  id : String
  userId : String
deriving DecidableEq

/-- State left behind by `handleDeleteBookmark`, plus the delete call it
issued and whether a destructive toast was shown. -/
structure DeleteResult where
  bookmarks : List Bookmark
  call : DeleteCall
  errorToast : Bool
deriving DecidableEq

/-- `handleDeleteBookmark` (BookmarkGrid.tsx lines 352-374): issue the
scoped delete; on success `setBookmarks(prev => prev.filter(b => b.id !== id))`;
on failure (`storeOk = false`, the call rejects) leave the working list
untouched and show a destructive toast. -/
def handleDeleteBookmark (bookmarks : List Bookmark) (uid : String)
    (id : String) (storeOk : Bool) : DeleteResult :=
  if storeOk then
    { bookmarks := bookmarks.filter (fun b => b.id ≠ id)
      call := { id := id, userId := uid }
      errorToast := false }
  else
    { bookmarks := bookmarks
      call := { id := id, userId := uid }
      errorToast := true }

/-- Outcome of the `fetch` to the summarization endpoint inside
`generateSummary`: a 2xx response with a body, a non-ok HTTP status, or a
thrown/rejected error. -/
inductive SummaryOutcome where
  | ok (body : String)
  | httpError (status : Nat)
  | exn
deriving DecidableEq

/-- `generateSummary` (AddBookmarkForm.tsx lines 65-82): on a non-ok
response or any exception return the fixed placeholder; otherwise trim
the body to 500 characters plus a `...` marker when it exceeds 500. -/
def generateSummary : SummaryOutcome → String
  | .ok body =>
    if body.length > 500 then jsSubstring0 body 500 ++ "..." else body
  | .httpError _ => "Summary temporarily unavailable."
  | .exn => "Summary temporarily unavailable."

/-- The summary field of the insert payload in `handleSubmit` (line 113):
`summary ? summary.substring(0, 1000) : null` — note the JS truthiness
test maps an empty summary string to null. -/
def storedSummary (summary : String) : Option String :=
  if summary ≠ "" then some (jsSubstring0 summary 1000) else none

/-- JS `s.split(',')` on character lists: comma-separated segments,
keeping empty segments ("".split gives one empty segment). -/
def splitCommaChars : List Char → List (List Char)
  | [] => [[]]
  | c :: rest =>
    match splitCommaChars rest with
    | [] => [[]]
    | cur :: others =>
      if c = ',' then [] :: cur :: others else (c :: cur) :: others

/-- JS `s.split(',')`. -/
def jsSplitComma (s : String) : List String :=
  (splitCommaChars s.toList).map String.mk

/-- Tag parsing in `handleSubmit` (AddBookmarkForm.tsx lines 100-104):
`formData.tags.split(',').map(tag => tag.trim()).filter(tag => tag.length > 0)`. -/
def parseTags (tagsField : String) : List String :=
  (((jsSplitComma tagsField).map jsTrim).filter (fun tag => decide (0 < tag.length)))

/-- Concrete bookmark fixture used by witnesses and counterexamples. -/
def testBookmark (i : String) (pos : Int) : Bookmark :=
  { id := i, url := "https://example.com/" ++ i, title := "title" ++ i,
    favicon_url := none, summary := none, tags := [],
    created_at := "2024-01-01", position := pos }

/-- Concrete raw-record fixture used by witnesses and counterexamples. -/
def testRaw (i : String) (pos : Option Int) : RawBookmark :=
  { id := i, url := "https://example.com/" ++ i, title := "title" ++ i,
    favicon_url := none, summary := none, tags := [],
    created_at := "2024-01-01", position := pos }

/-- The three-element list of Scenario A: ids 1, 2, 3 at positions 0, 1, 2. -/
def scenarioAList : List Bookmark :=
  [testBookmark "1" 0, testBookmark "2" 1, testBookmark "3" 2]

/-! ## Theorems -/

theorem length_jsSubstring0 (s : String) (n : Nat) :
    (jsSubstring0 s n).length ≤ n := by
  rw [jsSubstring0, String.length_mk, List.length_take]
  exact Nat.min_le_left n s.toList.length

theorem matchesTags_eq_true_iff (T : List String) (b : Bookmark) :
    matchesTags T b = true ↔ ∃ t ∈ T, t ∈ b.tags := by
  simp [matchesTags, List.any_eq_true, List.contains_iff_exists_mem_beq,
    beq_iff_eq]

theorem matchesSearch_eq_true_iff (s : String) (b : Bookmark) :
    matchesSearch s b = true ↔
      (jsIncludes (toLowerCase b.title) (toLowerCase s) = true ∨
       jsIncludes (toLowerCase b.url) (toLowerCase s) = true ∨
       ∃ sum, b.summary = some sum ∧
         jsIncludes (toLowerCase sum) (toLowerCase s) = true) := by
  cases hb : b.summary <;>
    simp [matchesSearch, hb, Bool.or_eq_true, or_assoc]

/-- C4: a bookmark appears in the filtered view iff it is in the working
list, the search text is empty or matches case-insensitively as a
substring of title, url, or summary (the summary check skipped when the
summary is null), and the selected-tag set is empty or shares at least
one tag with the bookmark; the two predicates are conjunctive and the tag
predicate is an OR over the selected set. -/
theorem C4_conjunctive_filter (L : List Bookmark) (s : String)
    (T : List String) (b : Bookmark) :
    b ∈ filterBookmarks L s T ↔
      b ∈ L ∧
      (s = "" ∨
        (jsIncludes (toLowerCase b.title) (toLowerCase s) = true ∨
         jsIncludes (toLowerCase b.url) (toLowerCase s) = true ∨
         ∃ sum, b.summary = some sum ∧
           jsIncludes (toLowerCase sum) (toLowerCase s) = true)) ∧
      (T = [] ∨ ∃ t ∈ T, t ∈ b.tags) := by
  by_cases hs : s = "" <;> by_cases hT0 : T = []
  · simp [filterBookmarks, hs, hT0]
  · have hTpos : 0 < T.length := List.length_pos.mpr hT0
    simp [filterBookmarks, hs, hT0, hTpos, List.mem_filter,
      matchesSearch_eq_true_iff, matchesTags_eq_true_iff]
  · simp [filterBookmarks, hs, hT0, List.mem_filter,
      matchesSearch_eq_true_iff, matchesTags_eq_true_iff]
  · have hTpos : 0 < T.length := List.length_pos.mpr hT0
    simp only [filterBookmarks, hs, hT0, hTpos, if_true, if_false,
      if_neg hs, if_pos hTpos, List.mem_filter, Bool.and_eq_true,
      matchesSearch_eq_true_iff, matchesTags_eq_true_iff, false_or]
    tauto

/-- C5: the filter derivation is a pure function of the working list,
search text and tag set; with both inputs empty it returns exactly the
working list, and for any inputs the filtered view is a sublist of the
working list (relative order preserved). -/
theorem C5_filter_purity :
    (∀ L : List Bookmark, filterBookmarks L "" [] = L) ∧
    (∀ (L : List Bookmark) (s : String) (T : List String),
      (filterBookmarks L s T).Sublist L) := by
  constructor
  · intro L
    simp [filterBookmarks]
  · intro L s T
    have h1 : (if s = "" then L else L.filter (matchesSearch s)).Sublist L := by
      split

      exact List.Sublist.refl L

      exact List.filter_sublist L
    have h2 : (filterBookmarks L s T).Sublist
        (if s = "" then L else L.filter (matchesSearch s)) := by
      simp only [filterBookmarks]
      split

      exact List.filter_sublist _

      exact List.Sublist.refl _
    exact h2.trans h1

/-- C8: a reorder gesture whose source and target resolve to the same
item identity is a no-op — the filtered view, the working list and all
positions are unchanged, and zero persistence calls are issued. -/
theorem C8_reorder_noop (uid : String) (F B : List Bookmark) (id : String)
    (failAt : Option Nat) :
    handleDragEnd uid F B id id failAt =
      { filteredBookmarks := F, bookmarks := B, calls := [],
        errorToast := false } := by
  simp [handleDragEnd]

/-- C7: delete issues a remove scoped by both id and owner; on success
exactly the items with that id leave the working list, the survivors
being the original records in order (positions not renumbered); on
failure the list is untouched and a destructive toast is surfaced;
deleting an id not present leaves the list unchanged without error. -/
theorem C7_delete (B : List Bookmark) (uid id : String) (ok : Bool) :
    (handleDeleteBookmark B uid id ok).call = { id := id, userId := uid } ∧
    (ok = true →
      (∀ b, b ∈ (handleDeleteBookmark B uid id ok).bookmarks ↔
        b ∈ B ∧ b.id ≠ id) ∧
      ((handleDeleteBookmark B uid id ok).bookmarks).Sublist B ∧
      (handleDeleteBookmark B uid id ok).errorToast = false) ∧
    (ok = false →
      (handleDeleteBookmark B uid id ok).bookmarks = B ∧
      (handleDeleteBookmark B uid id ok).errorToast = true) ∧
    ((∀ b ∈ B, b.id ≠ id) →
      (handleDeleteBookmark B uid id ok).bookmarks = B) := by
  refine ⟨?_, ?_, ?_, ?_⟩
  · cases ok <;> rfl
  · intro hok
    subst hok
    refine ⟨?_, ?_, rfl⟩
    · intro b
      simp [handleDeleteBookmark, List.mem_filter]
    · simp only [handleDeleteBookmark, if_pos rfl]
      exact List.filter_sublist B
  · intro hok
    subst hok
    exact ⟨rfl, rfl⟩
  · intro habs
    cases ok
    · rfl
    · simp only [handleDeleteBookmark, if_pos rfl]
      exact List.filter_eq_self.2 (fun b hb => by simp [habs b hb])

/-- C7 witness: deleting id 9 from a two-element list with the store
succeeding removes nothing (the id is absent) and surfaces no error. -/
theorem C7_delete_witness :
    (handleDeleteBookmark [testBookmark "1" 0, testBookmark "2" 1]
        "u1" "9" true).bookmarks =
      [testBookmark "1" 0, testBookmark "2" 1] :=
  (C7_delete [testBookmark "1" 0, testBookmark "2" 1] "u1" "9" true).2.2.2
    (by decide)

/-- C9: the summary fetcher never raises (it is a total function of the
fetch outcome): every failure returns the fixed placeholder, a successful
body longer than 500 characters is cut to its first 500 characters with
a truncation marker appended, a shorter body is returned as is, and the
summary stored at persistence time is capped to at most 1000
characters. -/
theorem C9_summary_caps (o : SummaryOutcome) (body : String) (st : Nat) :
    generateSummary .exn = "Summary temporarily unavailable." ∧
    generateSummary (.httpError st) = "Summary temporarily unavailable." ∧
    (body.length > 500 →
      generateSummary (.ok body) = jsSubstring0 body 500 ++ "...") ∧
    (¬ body.length > 500 → generateSummary (.ok body) = body) ∧
    (∀ t, storedSummary (generateSummary o) = some t → t.length ≤ 1000) := by
  refine ⟨rfl, rfl, ?_, ?_, ?_⟩
  · intro h
    simp [generateSummary, h]
  · intro h
    simp [generateSummary, h]
  · intro t ht
    unfold storedSummary at ht
    split at ht
    · cases ht
      exact length_jsSubstring0 _ _
    · exact absurd ht (by simp)

/-- C9 witness: a 600-character body is trimmed to 500 characters plus
the marker, and the stored summary respects the 1000-character cap. -/
theorem C9_summary_caps_witness :
    generateSummary (.ok (String.mk (List.replicate 600 'a'))) =
      jsSubstring0 (String.mk (List.replicate 600 'a')) 500 ++ "..." :=
  (C9_summary_caps .exn (String.mk (List.replicate 600 'a')) 404).2.2.1
    (by rw [String.length_mk, List.length_replicate]; decide)

theorem trimChars_idem (l : List Char) :
    trimChars (trimChars l) = trimChars l := by
  unfold trimChars
  have hdrop : (((l.dropWhile Char.isWhitespace).rdropWhile
      Char.isWhitespace).dropWhile Char.isWhitespace) =
      (l.dropWhile Char.isWhitespace).rdropWhile Char.isWhitespace := by
    rw [List.dropWhile_eq_self_iff]
    intro hl
    have hpre : ((l.dropWhile Char.isWhitespace).rdropWhile
        Char.isWhitespace) <+: l.dropWhile Char.isWhitespace :=
      List.rdropWhile_prefix _ _
    have hlm : 0 < (l.dropWhile Char.isWhitespace).length :=
      lt_of_lt_of_le hl hpre.length_le
    have hget := hpre.getElem (n := 0) hl
    rw [List.get_eq_getElem, hget]
    have := List.dropWhile_get_zero_not Char.isWhitespace l hlm
    rwa [List.get_eq_getElem] at this
  rw [hdrop]
  exact List.rdropWhile_idempotent _ _

theorem jsTrim_idem (s : String) : jsTrim (jsTrim s) = jsTrim s := by
  simp only [jsTrim, String.toList]
  exact congrArg String.mk (trimChars_idem s.toList)

/-- C10: every tag stored by the add-bookmark workflow is a
whitespace-trimmed, non-empty comma segment of the input: the parsed
sequence is a sublist of the trimmed comma segments (order and
duplicates preserved), and each stored tag is non-empty and free of
leading or trailing whitespace. -/
theorem C10_tag_parsing (s t : String) (h : t ∈ parseTags s) :
    0 < t.length ∧ jsTrim t = t ∧
      (parseTags s).Sublist ((jsSplitComma s).map jsTrim) := by
  refine ⟨?_, ?_, List.filter_sublist _⟩
  · have := (List.mem_filter.1 h).2
    simpa using this
  · have hmem := (List.mem_filter.1 h).1
    obtain ⟨u, _, rfl⟩ := List.mem_map.1 hmem
    exact jsTrim_idem u

/-- C10 witness: parsing "work, article,,  , important" stores exactly
the three trimmed non-empty tags, each fixed by a further trim. -/
theorem C10_tag_parsing_witness :
    "work" ∈ parseTags "work, article,,  , important" ∧
    0 < "work".length ∧ jsTrim "work" = "work" ∧
      (parseTags "work, article,,  , important").Sublist
        ((jsSplitComma "work, article,,  , important").map jsTrim) :=
  ⟨by decide, C10_tag_parsing "work, article,,  , important" "work" (by decide)⟩

/-- C6 counterexample: three records whose store-order positions are
[null, 1, 0] normalize to in-memory positions [0, 1, 0] — not [0, 1, 2]
as the claim states — because only a missing position falls back to the
record's index; a non-null position is kept as is. -/
theorem C6_scenarioD_counterexample :
    (normalizeBookmarks
        [testRaw "a" none, testRaw "b" (some 1), testRaw "c" (some 0)]).map
      (fun b => b.position) = [0, 1, 0] ∧
    ¬ (normalizeBookmarks
        [testRaw "a" none, testRaw "b" (some 1), testRaw "c" (some 0)]).map
      (fun b => b.position) = [0, 1, 2] := by
  decide

/-- C6 (amended): fetch-and-normalize preserves the store's return order
and gives every record a defined integer position: the record at index
`i` keeps its id and gets position `i` exactly when its stored position
is null, keeping its stored position otherwise. -/
theorem C6_normalize_null_fallback (data : List RawBookmark) (i : Nat)
    (raw : RawBookmark) (h : data[i]? = some raw) :
    ∃ b : Bookmark, (normalizeBookmarks data)[i]? = some b ∧
      b.id = raw.id ∧ b.position = raw.position.getD (i : Int) ∧
      (raw.position = none → b.position = (i : Int)) := by
  have hb : (normalizeBookmarks data)[i]? = some
      { id := raw.id, url := raw.url, title := raw.title,
        favicon_url := raw.favicon_url, summary := raw.summary,
        tags := raw.tags, created_at := raw.created_at,
        position := raw.position.getD (i : Int) } := by
    rw [normalizeBookmarks, List.getElem?_map, List.getElem?_enum, h]
    rfl
  exact ⟨_, hb, rfl, rfl, fun hp => by simp [hp]⟩

/-- C6 witness: the record with null position at index 0 of the
Scenario-D list normalizes to position 0 with its id preserved. -/
theorem C6_normalize_null_fallback_witness :
    ∃ b : Bookmark,
      (normalizeBookmarks
          [testRaw "a" none, testRaw "b" (some 1), testRaw "c" (some 0)])[0]? =
        some b ∧
      b.id = (testRaw "a" none).id ∧
      b.position = (testRaw "a" none).position.getD ((0 : Nat) : Int) ∧
      ((testRaw "a" none).position = none → b.position = ((0 : Nat) : Int)) :=
  C6_normalize_null_fallback
    [testRaw "a" none, testRaw "b" (some 1), testRaw "c" (some 0)]
    0 (testRaw "a" none) (by decide)

theorem insertIdx_append_cons (a b : List α) (x : α) :
    (a ++ b).insertIdx a.length x = a ++ x :: b := by
  induction a with
  | nil => rfl
  | cons h t ih => simpa [List.insertIdx_succ_cons] using ih

theorem arrayMove_of_lt (l : List α) (f t : Nat) (hf : f < l.length)
    (ht : t < l.length) :
    arrayMove l f t = (l.eraseIdx f).insertIdx t l[f] := by
  unfold arrayMove
  rw [List.getElem?_eq_getElem hf]
  have hmin : min t (l.length - 1) = t :=
    Nat.min_eq_left (Nat.le_pred_of_lt ht)
  rw [hmin]

theorem arrayMove_length (l : List α) (f t : Nat) :
    (arrayMove l f t).length = l.length := by
  unfold arrayMove
  cases hf : l[f]? with
  | none => rfl
  | some x =>
    have hfl : f < l.length := by
      by_contra hcon
      rw [List.getElem?_eq_none (Nat.le_of_not_lt hcon)] at hf
      cases hf
    have hel : (l.eraseIdx f).length = l.length - 1 :=
      List.length_eraseIdx_of_lt hfl
    rw [List.length_insertIdx _ _ (by rw [hel]; exact Nat.min_le_right _ _),
      hel]
    omega

theorem arrayMove_perm (l : List α) (f t : Nat) : (arrayMove l f t).Perm l := by
  unfold arrayMove
  cases hf : l[f]? with
  | none => exact List.Perm.refl l
  | some x =>
    have hfl : f < l.length := by
      by_contra hcon
      rw [List.getElem?_eq_none (Nat.le_of_not_lt hcon)] at hf
      cases hf
    have hx : l[f] = x := by
      have := List.getElem?_eq_getElem hfl
      rw [hf] at this
      exact (Option.some.inj this).symm
    have h1 : ((l.eraseIdx f).insertIdx (min t (l.length - 1)) x).Perm
        (x :: l.eraseIdx f) :=
      List.perm_insertIdx x _ (by
        rw [List.length_eraseIdx_of_lt hfl]
        exact Nat.min_le_right _ _)
    refine h1.trans ?_
    rw [List.eraseIdx_eq_take_drop_succ]
    refine (List.perm_middle).symm.trans ?_
    have hcd : x :: l.drop (f + 1) = l.drop f := by
      rw [← hx]
      exact List.getElem_cons_drop l f hfl
    rw [hcd, List.take_append_drop]

theorem arrayMove_arrayMove (l : List α) (f t : Nat) (hf : f < l.length)
    (ht : t < l.length) :
    arrayMove (arrayMove l f t) t f = l := by
  have hel : (l.eraseIdx f).length = l.length - 1 :=
    List.length_eraseIdx_of_lt hf
  have htl : t ≤ (l.eraseIdx f).length := by omega
  have hml : ((l.eraseIdx f).insertIdx t l[f]).length = l.length := by
    rw [List.length_insertIdx _ _ htl]
    omega
  rw [arrayMove_of_lt l f t hf ht,
    arrayMove_of_lt _ t f (by omega) (by omega)]
  rw [List.getElem_insertIdx_self _ _ _ htl,
    List.eraseIdx_insertIdx t (l.eraseIdx f),
    List.eraseIdx_eq_take_drop_succ]
  have hlf : (l.take f).length = f := by
    rw [List.length_take]
    omega
  calc (l.take f ++ l.drop (f + 1)).insertIdx f l[f]
      = (l.take f ++ l.drop (f + 1)).insertIdx (l.take f).length l[f] := by
        rw [hlf]
    _ = l.take f ++ l[f] :: l.drop (f + 1) := insertIdx_append_cons _ _ _
    _ = l := by rw [List.getElem_cons_drop l f hf, List.take_append_drop]

theorem length_mkUpdates (uid : String) (l : List Bookmark) :
    (mkUpdates uid l).length = l.length := by
  simp [mkUpdates]

theorem mkUpdates_map_position (uid : String) (l : List Bookmark) :
    (mkUpdates uid l).map (fun c => c.position) =
      (List.range l.length).map Int.ofNat := by
  conv_rhs => rw [← List.enum_map_fst l, List.map_map]
  simp only [mkUpdates, List.map_map]
  rfl

theorem mkUpdates_map_id (uid : String) (l : List Bookmark) :
    (mkUpdates uid l).map (fun c => c.id) = l.map (fun b => b.id) := by
  conv_rhs => rw [← List.enum_map_snd l, List.map_map]
  simp only [mkUpdates, List.map_map]
  rfl

unseal List.merge List.mergeSort in
/-- C1: the reorder persistence loop discards each supabase update
result — unlike `handleDeleteBookmark` and `fetchBookmarks` it has no
`if (error) throw error`, and the client resolves store failures as a
`{ error }` value instead of rejecting — so the catch block that would
toast and revert is unreachable for a failing persistence call.
Evaluated at the failing input (Scenario-A list, gesture moving id 1
onto id 3, Remote Store failing call 1 of 3): the handler shows no
error toast, still issues all three calls, leaves the filtered view in
the new order [2, 3, 1] instead of reverting it to [1, 2, 3], and still
reconciles and re-sorts the working list — contradicting the claimed
non-fatal notification and in-memory revert. -/
theorem C1_failed_update_swallowed :
    (handleDragEnd "u1" scenarioAList scenarioAList "1" "3"
      (some 1)).errorToast = false ∧
    (handleDragEnd "u1" scenarioAList scenarioAList "1" "3"
      (some 1)).calls.length = 3 ∧
    (handleDragEnd "u1" scenarioAList scenarioAList "1" "3"
      (some 1)).filteredBookmarks.map (fun b => b.id) = ["2", "3", "1"] ∧
    ¬ (handleDragEnd "u1" scenarioAList scenarioAList "1" "3"
      (some 1)).filteredBookmarks = scenarioAList ∧
    (handleDragEnd "u1" scenarioAList scenarioAList "1" "3"
      (some 1)).bookmarks.map (fun b => (b.id, b.position)) =
      [("2", 0), ("3", 1), ("1", 2)] := by
  decide

/-- C2 counterexample: moving id 1 onto id 2 in the three-element list
leaves id 3 at its old position 2, yet an update call carrying
`(id 3, position 2)` is still issued, and the loop issues three calls —
one per item of the new order — although only two positions changed.
This falsifies the claim that no call is issued for an item whose
position is unchanged. -/
theorem C2_unchanged_item_still_written :
    ({ id := "3", position := 2, userId := "u1" } : UpdateCall) ∈
      (handleDragEnd "u1" scenarioAList scenarioAList "1" "2" none).calls ∧
    testBookmark "3" 2 ∈ scenarioAList ∧
    (testBookmark "3" 2).position = 2 ∧
    (handleDragEnd "u1" scenarioAList scenarioAList "1" "2" none).calls.length
      = 3 := by
  decide

set_option linter.unusedVariables false in
/-- C2 (amended): a real reorder assigns each item of the new order a
position equal to its zero-based index and issues exactly one
persistence call per item of the new order — including items whose
position did not change — sequentially in list order, each scoped by the
item's id and the owner identity. -/
theorem C2_one_call_per_item (uid : String) (F B : List Bookmark)
    (a o : String) (ha : ∃ x ∈ F, x.id = a) (ho : ∃ x ∈ F, x.id = o)
    (hao : a ≠ o) :
    (handleDragEnd uid F B a o none).calls.length = F.length ∧
    (handleDragEnd uid F B a o none).calls.map (fun c => c.position) =
      (List.range F.length).map Int.ofNat ∧
    (handleDragEnd uid F B a o none).calls.map (fun c => c.id) =
      (arrayMove F (F.findIdx (fun x => x.id = a))
        (F.findIdx (fun x => x.id = o))).map (fun b => b.id) ∧
    ∀ c ∈ (handleDragEnd uid F B a o none).calls, c.userId = uid := by
  simp only [handleDragEnd, hao, ne_eq, not_false_iff, if_true]
  refine ⟨?_, ?_, ?_, ?_⟩
  · rw [length_mkUpdates, arrayMove_length]
  · rw [mkUpdates_map_position, arrayMove_length]
  · rw [mkUpdates_map_id]
  · intro c hc
    simp only [mkUpdates, List.mem_map] at hc
    obtain ⟨p, _, rfl⟩ := hc
    rfl

/-- C2 witness: the Scenario-A gesture issues three calls with positions
0, 1, 2 in issue order, all scoped by the owner id. -/
theorem C2_one_call_per_item_witness :
    (handleDragEnd "u1" scenarioAList scenarioAList "1" "3"
      none).calls.length = scenarioAList.length ∧
    (handleDragEnd "u1" scenarioAList scenarioAList "1" "3"
      none).calls.map (fun c => c.position) =
      (List.range scenarioAList.length).map Int.ofNat ∧
    (handleDragEnd "u1" scenarioAList scenarioAList "1" "3"
      none).calls.map (fun c => c.id) =
      (arrayMove scenarioAList
        (scenarioAList.findIdx (fun x => x.id = "1"))
        (scenarioAList.findIdx (fun x => x.id = "3"))).map (fun b => b.id) ∧
    ∀ c ∈ (handleDragEnd "u1" scenarioAList scenarioAList "1" "3"
      none).calls, c.userId = "u1" :=
  C2_one_call_per_item "u1" scenarioAList scenarioAList "1" "3" (by decide)
    (by decide) (by decide)

theorem set_getElem_self (l : List α) (i : Nat) (h : i < l.length) :
    l.set i l[i] = l := by
  apply List.ext_getElem (by simp)
  intro n h1 h2
  rw [List.getElem_set]
  split
  · rename_i heq
    subst heq
    rfl
  · rfl

theorem perm_cons_eraseIdx (l : List α) (i : Nat) (h : i < l.length) :
    l.Perm (l[i] :: l.eraseIdx i) := by
  conv_lhs => rw [← List.take_append_drop i l,
    ← List.getElem_cons_drop l i h]
  rw [List.eraseIdx_eq_take_drop_succ]
  exact List.perm_middle

theorem map_id_set_eq (acc : List Bookmark) (i : Nat) (hi : i < acc.length)
    (nb : Bookmark) (hnb : nb.id = acc[i].id) :
    (acc.set i nb).map (fun b => b.id) = acc.map (fun b => b.id) := by
  rw [List.map_set]
  have hi2 : i < (acc.map (fun b => b.id)).length := by simpa using hi
  have hh : nb.id = (acc.map (fun b => b.id))[i] := by
    rw [List.getElem_map]
    exact hnb
  rw [hh]
  exact set_getElem_self _ _ hi2

theorem applyOrder_perm (pairs : List (Nat × Bookmark)) :
    ∀ acc : List Bookmark,
    (acc.map (fun b => b.id)).Nodup →
    (pairs.map (fun p => p.2.id)).Nodup →
    (∀ p ∈ pairs, p.2.id ∈ acc.map (fun b => b.id)) →
    (applyOrder acc pairs).Perm
      ((pairs.map (fun p => { p.2 with position := (p.1 : Int) })) ++
        acc.filter (fun x => decide (x.id ∉ pairs.map (fun p => p.2.id)))) := by
  induction pairs with
  | nil =>
    intro acc _ _ _
    simp [applyOrder]
  | cons hd rest ih =>
    obtain ⟨idx, b⟩ := hd
    intro acc hacc hpairs hsub
    have hbid : b.id ∈ acc.map (fun b => b.id) :=
      hsub (idx, b) (List.mem_cons_self _ _)
    have hex : ∃ x ∈ acc, (fun x => decide (x.id = b.id)) x := by
      obtain ⟨x, hx1, hx2⟩ := List.mem_map.1 hbid
      exact ⟨x, hx1, by simp [hx2]⟩
    have hi : acc.findIdx (fun x => x.id = b.id) < acc.length :=
      List.findIdx_lt_length_of_exists hex
    have hacci : acc[acc.findIdx (fun x => x.id = b.id)].id = b.id := by
      have hfind := List.findIdx_getElem (w := hi)
      exact of_decide_eq_true hfind
    have hstep : applyOrder acc ((idx, b) :: rest) =
        applyOrder (acc.set (acc.findIdx (fun x => x.id = b.id))
          { b with position := (idx : Int) }) rest := by
      simp only [applyOrder]
      rw [if_pos hi]
    have hids : (acc.set (acc.findIdx (fun x => x.id = b.id))
        { b with position := (idx : Int) }).map (fun b => b.id) =
        acc.map (fun b => b.id) :=
      map_id_set_eq acc _ hi _ hacci.symm
    have hnodup2 : ((acc.set (acc.findIdx (fun x => x.id = b.id))
        { b with position := (idx : Int) }).map (fun b => b.id)).Nodup := by
      rw [hids]
      exact hacc
    have hpairsrest : (rest.map (fun p => p.2.id)).Nodup :=
      (List.nodup_cons.1 hpairs).2
    have hbnotrest : b.id ∉ rest.map (fun p => p.2.id) :=
      (List.nodup_cons.1 hpairs).1
    have hsub2 : ∀ p ∈ rest, p.2.id ∈
        (acc.set (acc.findIdx (fun x => x.id = b.id))
          { b with position := (idx : Int) }).map (fun b => b.id) := by
      intro p hp
      rw [hids]
      exact hsub p (List.mem_cons_of_mem _ hp)
    have hIH := ih _ hnodup2 hpairsrest hsub2
    rw [hstep]
    refine hIH.trans ?_
    have hsetperm : (acc.set (acc.findIdx (fun x => x.id = b.id))
        { b with position := (idx : Int) }).Perm
        ({ b with position := (idx : Int) } ::
          acc.eraseIdx (acc.findIdx (fun x => x.id = b.id))) := by
      rw [List.set_eq_take_cons_drop _ hi, List.eraseIdx_eq_take_drop_succ]
      exact List.perm_middle
    have haccperm : acc.Perm
        (acc[acc.findIdx (fun x => x.id = b.id)] ::
          acc.eraseIdx (acc.findIdx (fun x => x.id = b.id))) :=
      perm_cons_eraseIdx acc _ hi
    have herasenotb : ∀ x ∈ acc.eraseIdx (acc.findIdx (fun x => x.id = b.id)),
        x.id ≠ b.id := by
      intro x hx
      have hidsperm : (acc.map (fun b => b.id)).Perm
          (b.id :: (acc.eraseIdx (acc.findIdx (fun x => x.id = b.id))).map
            (fun b => b.id)) := by
        have := haccperm.map (fun b => b.id)
        rwa [List.map_cons, hacci] at this
      have hnodup3 : (b.id :: (acc.eraseIdx
          (acc.findIdx (fun x => x.id = b.id))).map (fun b => b.id)).Nodup :=
        (hidsperm.nodup_iff).1 hacc
      have hnotmem := (List.nodup_cons.1 hnodup3).1
      intro hxb
      have hxmem : x.id ∈ (acc.eraseIdx
          (acc.findIdx (fun x => x.id = b.id))).map (fun b => b.id) :=
        List.mem_map_of_mem (fun b => b.id) hx
      rw [hxb] at hxmem
      exact hnotmem hxmem
    have hfiltercongr : (acc.eraseIdx
          (acc.findIdx (fun x => x.id = b.id))).filter
          (fun x => decide (x.id ∉ rest.map (fun p => p.2.id))) =
        (acc.eraseIdx (acc.findIdx (fun x => x.id = b.id))).filter
          (fun x => decide (x.id ∉
            ((idx, b) :: rest).map (fun p => p.2.id))) := by
      apply List.filter_congr
      intro x hx
      simp [List.mem_cons, herasenotb x hx]
    have hfilterset : ((acc.set (acc.findIdx (fun x => x.id = b.id))
        { b with position := (idx : Int) }).filter
          (fun x => decide (x.id ∉ rest.map (fun p => p.2.id)))).Perm
        ({ b with position := (idx : Int) } ::
          (acc.eraseIdx (acc.findIdx (fun x => x.id = b.id))).filter
            (fun x => decide (x.id ∉ rest.map (fun p => p.2.id)))) := by
      refine (hsetperm.filter _).trans ?_
      rw [List.filter_cons]
      have hb : (decide (({ b with position := (idx : Int) } : Bookmark).id ∉
          rest.map (fun p => p.2.id))) = true := by
        simpa using hbnotrest
      rw [if_pos hb]
    have hfilteracc : (acc.filter (fun x => decide (x.id ∉
        ((idx, b) :: rest).map (fun p => p.2.id)))).Perm
        ((acc.eraseIdx (acc.findIdx (fun x => x.id = b.id))).filter
          (fun x => decide (x.id ∉
            ((idx, b) :: rest).map (fun p => p.2.id)))) := by
      refine (haccperm.filter _).trans ?_
      simp only [List.filter_cons]
      rw [if_neg (by simp [hacci])]
    refine (List.Perm.append_left _ hfilterset).trans ?_
    refine List.Perm.trans List.perm_middle ?_
    rw [List.map_cons, List.cons_append]
    refine List.Perm.cons _ ?_
    refine List.Perm.append_left _ ?_
    rw [hfiltercongr]
    exact hfilteracc.symm

theorem reconcile_positions_perm (L N0 : List Bookmark) (hperm : N0.Perm L)
    (hnd : (L.map (fun b => b.id)).Nodup) :
    ((reconcileBookmarks L N0).map (fun b => b.position)).Perm
      ((List.range N0.length).map Int.ofNat) := by
  have hidN : (N0.map (fun b => b.id)).Nodup :=
    (hperm.map (fun b => b.id)).nodup_iff.2 hnd
  have hpairids : N0.enum.map (fun p => p.2.id) = N0.map (fun b => b.id) := by
    rw [show (fun p : Nat × Bookmark => p.2.id) =
      ((fun b : Bookmark => b.id) ∘ Prod.snd) from rfl,
      ← List.map_map, List.enum_map_snd]
  have hsub : ∀ p ∈ N0.enum, p.2.id ∈ L.map (fun b => b.id) := by
    intro p hp
    exact (hperm.map (fun b => b.id)).mem_iff.1
      (List.mem_map_of_mem _ (List.snd_mem_of_mem_enum hp))
  have h1 := applyOrder_perm N0.enum L hnd
    (by rw [hpairids]; exact hidN) hsub
  have hfilternil : L.filter (fun x =>
      decide (x.id ∉ N0.enum.map (fun p => p.2.id))) = [] := by
    rw [List.filter_eq_nil_iff]
    intro x hx
    have : x.id ∈ N0.map (fun b => b.id) :=
      (hperm.map (fun b => b.id)).mem_iff.2 (List.mem_map_of_mem _ hx)
    rw [← hpairids] at this
    simp [this]
  rw [hfilternil, List.append_nil] at h1
  have h2 : ((applyOrder L N0.enum).map (fun b => b.position)).Perm
      ((N0.enum.map (fun p =>
        { p.2 with position := (p.1 : Int) })).map (fun b => b.position)) :=
    h1.map _
  have h3 : (N0.enum.map (fun p =>
      { p.2 with position := (p.1 : Int) })).map (fun b => b.position) =
      (List.range N0.length).map Int.ofNat := by
    conv_rhs => rw [← List.enum_map_fst N0, List.map_map]
    rw [List.map_map]
    rfl
  have h4 : ((reconcileBookmarks L N0).map (fun b => b.position)).Perm
      ((applyOrder L N0.enum).map (fun b => b.position)) :=
    (List.mergeSort_perm _ _).map _
  exact h4.trans (h2.trans (h3 ▸ List.Perm.refl _))

set_option linter.unusedVariables false in
unseal List.merge List.mergeSort in
/-- C3: a successful reorder gesture between two distinct items of the
full (unfiltered) working list with pairwise-distinct ids leaves the
working list with positions forming exactly the set 0..N-1, one each;
and on the Scenario-A list, moving id 1 onto id 3 yields the order
[2, 3, 1] with positions [0, 1, 2]. -/
theorem C3_reorder_density (uid : String) (L : List Bookmark) (a o : String)
    (hnd : (L.map (fun b => b.id)).Nodup) (ha : ∃ x ∈ L, x.id = a)
    (ho : ∃ x ∈ L, x.id = o) (hao : a ≠ o) :
    ((handleDragEnd uid L L a o none).bookmarks.map
        (fun b => b.position)).Perm ((List.range L.length).map Int.ofNat) ∧
    (handleDragEnd "u1" scenarioAList scenarioAList "1" "3"
        none).bookmarks.map (fun b => (b.id, b.position)) =
      [("2", 0), ("3", 1), ("1", 2)] := by
  constructor
  · simp only [handleDragEnd, hao, ne_eq, not_false_iff, if_true]
    have hperm := arrayMove_perm L (L.findIdx (fun x => x.id = a))
      (L.findIdx (fun x => x.id = o))
    have hmain := reconcile_positions_perm L _ hperm hnd
    rwa [arrayMove_length] at hmain
  · decide

/-- C3 witness: the density conclusion instantiated on the Scenario-A
list itself. -/
theorem C3_reorder_density_witness :
    ((handleDragEnd "u1" scenarioAList scenarioAList "1" "3"
        none).bookmarks.map (fun b => b.position)).Perm
      ((List.range scenarioAList.length).map Int.ofNat) ∧
    (handleDragEnd "u1" scenarioAList scenarioAList "1" "3"
        none).bookmarks.map (fun b => (b.id, b.position)) =
      [("2", 0), ("3", 1), ("1", 2)] :=
  C3_reorder_density "u1" scenarioAList "1" "3" (by decide) (by decide)
    (by decide) (by decide)

end LinkSaver
